import Mathlib

/-
Verification of the bft Brainfuck toolkit: a shallow embedding of the
program loader (`bft_types`) and the tape virtual machine (`bft_interp`),
with theorems checking the natural-language specification against it.

Machine integers (`usize`, `u8`) are modelled as `Nat` with explicit
wrap-around (`% 2 ^ 64`, `% 256`) at the places where the source relies on
overflow behaviour.  Fallible operations return an explicit result type;
Rust panics (out-of-bounds indexing, arithmetic overflow in debug mode)
are modelled as a distinct `panic` outcome.
-/

namespace Bft

/-- The eight raw Brainfuck instructions, mirroring `Operation` in
`bft_types/src/ops.rs`. -/
inductive Operation where
  | incrementPointer
  | decrementPointer
  | incrementByte
  | decrementByte
  | outputByte
  | inputByte
  | startLoop
  | endLoop
deriving DecidableEq

/-- `Operation::char_to_operation` from `bft_types/src/ops.rs`: maps the
eight alphabet characters to instructions and everything else to `none`. -/
def charToOperation (c : Char) : Option Operation :=
  if c = '>' then some .incrementPointer
  else if c = '<' then some .decrementPointer
  else if c = '+' then some .incrementByte
  else if c = '-' then some .decrementByte
  else if c = '.' then some .outputByte
  else if c = ',' then some .inputByte
  else if c = '[' then some .startLoop
  else if c = ']' then some .endLoop
  else none

/-- `InstructionInfo` from `bft_types/src/lib.rs`: an operation with the
1-based line and column of its source character. -/
structure InstructionInfo where
  operation : Operation
  line : Nat
  column : Nat
deriving DecidableEq

/-- The tokenization pass of `BfProgram::new`: characters are scanned in
source order, each mapped through `char_to_operation`; unmapped characters
are dropped.  The `line`/`column` arguments carry the 1-based position of
the next character (the `LineColLookup` of the source, with the column
resetting after each newline). -/
def tokenizeAux : List Char → Nat → Nat → List InstructionInfo
  | [], _, _ => []
  | c :: rest, line, col =>
    let tail := tokenizeAux rest (if c = '\n' then line + 1 else line)
      (if c = '\n' then 1 else col + 1)
    match charToOperation c with
    | some op => ⟨op, line, col⟩ :: tail
    | none => tail

/-- Tokenization of a whole source text, starting at line 1, column 1. -/
def tokenize (contents : List Char) : List InstructionInfo :=
  tokenizeAux contents 1 1

/-- `BfProgram` from `bft_types/src/lib.rs`: the retained instructions and
the program's file name. -/
structure BfProgram where
  instructions : List InstructionInfo
  filename : String
deriving DecidableEq

/-- `BfProgram::new` from `bft_types/src/lib.rs` (lines 73-92): builds the
instruction list by `filter_map` over the characters and stores the file
name.  Note that this constructor is total: it performs no bracket
analysis and cannot fail. -/
def BfProgram.new (contents : List Char) (filename : String) : BfProgram :=
  ⟨tokenize contents, filename⟩

/-- The two bracket-imbalance errors reported by `BfProgram::bracket_check`
(the source formats them into strings; `unmatchedClose` stands for the
"Unexpected ']' ... at line ... and column ..." message and
`unmatchedOpen` for the "Too few ']' ... at line ... and column ..."
message, each carrying the line and column it interpolates). -/
inductive BracketError where
  | unmatchedClose (line column : Nat)
  | unmatchedOpen (line column : Nat)
deriving DecidableEq

/-- The scanning loop of `BfProgram::bracket_check` (lines 113-150).  The
`stack` list is the `opening_loops` vector with its top at the head: a
`StartLoop` is pushed, an `EndLoop` pops, a pop from the empty stack
reports the close bracket's position, and a non-empty stack at the end of
the scan reports the most recently pushed remaining open bracket. -/
def bracketCheckAux : List InstructionInfo → List InstructionInfo →
    Except BracketError Unit
  | [], stack =>
    match stack with
    | i :: _ => .error (.unmatchedOpen i.line i.column)
    | [] => .ok ()
  | i :: rest, stack =>
    if i.operation = .startLoop then bracketCheckAux rest (i :: stack)
    else if i.operation = .endLoop then
      match stack with
      | [] => .error (.unmatchedClose i.line i.column)
      | _ :: stack' => bracketCheckAux rest stack'
    else bracketCheckAux rest stack

/-- `BfProgram::bracket_check` from `bft_types/src/lib.rs`. -/
def BfProgram.bracketCheck (p : BfProgram) : Except BracketError Unit :=
  bracketCheckAux p.instructions []

/-- Modelled from the spec: the load errors of section 7,
`UnmatchedOpenBracket{line, column}` and `UnmatchedCloseBracket{line,
column}`. -/
inductive LoadError where
  | unmatchedOpenBracket (line column : Nat)
  | unmatchedCloseBracket (line column : Nat)
deriving DecidableEq

/-- Modelled from the spec: the bracket analysis of section 4.1, written
from the spec's words for comparison with the source's `bracket_check`.  A
stack of pending loop-open instructions is kept; `LoopStart` pushes, a
`LoopEnd` with an empty stack fails with `UnmatchedCloseBracket` at the
current instruction's position, and a non-empty stack after the scan fails
with `UnmatchedOpenBracket` at the most recently pushed, still-unmatched
open bracket. -/
def specBracketScan : List InstructionInfo → List InstructionInfo →
    Except LoadError Unit
  | [], stack =>
    match stack with
    | i :: _ => .error (.unmatchedOpenBracket i.line i.column)
    | [] => .ok ()
  | i :: rest, stack =>
    if i.operation = .startLoop then specBracketScan rest (i :: stack)
    else if i.operation = .endLoop then
      match stack with
      | [] => .error (.unmatchedCloseBracket i.line i.column)
      | _ :: stack' => specBracketScan rest stack'
    else specBracketScan rest stack

/-- Modelled from the spec: the Program's open-to-close bracket map.  The
implementation of `bracket_matching_positions` is absent from the sources
(only its callers in `bft_interp` are present); per sections 3 and 4.1 it
records the (open index, close index) pair each time the bracket scan pops
a pending open bracket. -/
def buildBracketMapAux : List InstructionInfo → Nat → List Nat →
    List (Nat × Nat) → List (Nat × Nat)
  | [], _, _, acc => acc
  | i :: rest, idx, stack, acc =>
    if i.operation = .startLoop then
      buildBracketMapAux rest (idx + 1) (idx :: stack) acc
    else if i.operation = .endLoop then
      match stack with
      | [] => buildBracketMapAux rest (idx + 1) [] acc
      | m :: stack' => buildBracketMapAux rest (idx + 1) stack' (acc ++ [(m, idx)])
    else buildBracketMapAux rest (idx + 1) stack acc

/-- Modelled from the spec: `bracket_matching_positions` over a whole
instruction sequence. -/
def buildBracketMap (il : List InstructionInfo) : List (Nat × Nat) :=
  buildBracketMapAux il 0 [] []

/-- `VirtualMachineError` from `bft_types/src/vm_error.rs`. -/
inductive VMError where
  | invalidHeadPosition (line column : Nat) (operation : Operation)
      (filename : String) (position tapeLength : Nat)
  | ioError
  | unmatchedBracket (bracket : Char) (line column : Nat)
  | bracketFailure
deriving DecidableEq

/-- Result of a VM operation: the `Result<usize, VirtualMachineError>` of
the source, extended with a `panic` outcome for Rust panics and an
`outOfFuel` outcome for the fuel-indexed interpreter loop. -/
inductive RunRes (α : Type) where
  | ok (a : α)
  | vmError (e : VMError)
  | panic
  | outOfFuel
deriving DecidableEq

/-- The `VirtualMachine` state from `bft_interp/src/lib.rs`, with the
borrowed program's instruction list, file name and (spec-modelled) bracket
map inlined, and the caller-supplied byte streams modelled as an input
list (bytes still to be read) and an output list (bytes written so far). -/
structure VMState where
  instructions : List InstructionInfo
  filename : String
  bracketMap : List (Nat × Nat)
  tape : List Nat
  tapeHead : Nat
  programPosition : Nat
  growable : Bool
  input : List Nat
  output : List Nat
deriving DecidableEq

/-- The usize modulus. -/
def USIZE : Nat := 2 ^ 64

/-- Wrapping `usize` subtraction, as performed by release-mode Rust for
`a - b`. -/
def usizeSub (a b : Nat) : Nat := (a + (USIZE - b)) % USIZE

/-- `VirtualMachine::check_head_location` (lines 88-115): if the head is
past `tape.len() - 1` (a wrapping usize subtraction), a growable tape is
extended by one zero cell, a fixed tape produces `InvalidHeadPosition`
with the current instruction's position data (panicking if
`program_position` is out of range of the instruction list). -/
def checkHeadLocation (s : VMState) : RunRes Nat × VMState :=
  if s.tapeHead > usizeSub s.tape.length 1 then
    if s.growable then
      let s' := { s with tape := s.tape ++ [0] }
      (.ok s'.programPosition, s')
    else
      match s.instructions.get? s.programPosition with
      | some i =>
        (.vmError (.invalidHeadPosition i.line i.column i.operation
          s.filename s.tapeHead s.tape.length), s)
      | none => (.panic, s)
  else (.ok s.programPosition, s)

/-- `VirtualMachine::increment_cell_at_head` (lines 118-123); cells are
`u8` values, so the increment wraps modulo 256. -/
def incrementCellAtHead (s : VMState) : RunRes Nat × VMState :=
  match s.tape.get? s.tapeHead with
  | some v =>
    (.ok (s.programPosition + 1), { s with tape := s.tape.set s.tapeHead ((v + 1) % 256) })
  | none => (.panic, s)

/-- `VirtualMachine::decrement_cell_at_head` (lines 126-131); the wrapping
decrement of a `u8` value. -/
def decrementCellAtHead (s : VMState) : RunRes Nat × VMState :=
  match s.tape.get? s.tapeHead with
  | some v =>
    (.ok (s.programPosition + 1), { s with tape := s.tape.set s.tapeHead ((v + 255) % 256) })
  | none => (.panic, s)

/-- `VirtualMachine::read_into_cell` (lines 135-152): a failed one-byte
read becomes `IOError`; on success the byte is stored at the head
(panicking if the head is out of bounds). -/
def readIntoCell (s : VMState) : RunRes Nat × VMState :=
  match s.input with
  | [] => (.vmError .ioError, s)
  | b :: rest =>
    match s.tape.get? s.tapeHead with
    | some _ =>
      (.ok (s.programPosition + 1),
        { s with tape := s.tape.set s.tapeHead (b % 256), input := rest })
    | none => (.panic, { s with input := rest })

/-- `VirtualMachine::write_out_of_cell` (lines 156-166): the cell at the
head is written to the output stream (modelled as an infallible byte
list). -/
def writeOutOfCell (s : VMState) : RunRes Nat × VMState :=
  match s.tape.get? s.tapeHead with
  | some v => (.ok (s.programPosition + 1), { s with output := s.output ++ [v % 256] })
  | none => (.panic, s)

/-- The `?` operator applied to a handler result: on `ok` the computation
continues from the updated state, while an error, panic or fuel
exhaustion propagates unchanged. -/
def vmBind (r : RunRes Nat × VMState) (f : VMState → RunRes Nat × VMState) :
    RunRes Nat × VMState :=
  match r with
  | (.ok _, s1) => f s1
  | r => r

/-- `VirtualMachine::move_right` (lines 169-177): check (`?`), increment
the head, check (`?`) again, and return the next program position. -/
def moveRight (s : VMState) : RunRes Nat × VMState :=
  vmBind (checkHeadLocation s) fun s1 =>
    vmBind (checkHeadLocation { s1 with tapeHead := s1.tapeHead + 1 }) fun s3 =>
      (.ok (s3.programPosition + 1), s3)

/-- `VirtualMachine::move_left` (lines 180-198): check (`?`), fail with
`InvalidHeadPosition` if the head is at zero, otherwise decrement the
head, check (`?`) again, and return the next program position. -/
def moveLeft (s : VMState) : RunRes Nat × VMState :=
  vmBind (checkHeadLocation s) fun s1 =>
    if s1.tapeHead = 0 then
      match s1.instructions.get? s1.programPosition with
      | some i =>
        (.vmError (.invalidHeadPosition i.line i.column i.operation
          s1.filename s1.tapeHead s1.tape.length), s1)
      | none => (.panic, s1)
    else
      vmBind (checkHeadLocation { s1 with tapeHead := s1.tapeHead - 1 }) fun s3 =>
        (.ok (s3.programPosition + 1), s3)

/-- `VirtualMachine::start_loop` (lines 201-212): if the bracket map has
the current program position among its keys, return the mapped value,
else fail with the defensive `BracketFailure`.  Keys are unique, so the
hash-map lookup is modelled by `List.find?` on the first component. -/
def startLoop (s : VMState) : RunRes Nat × VMState :=
  match s.bracketMap.find? (fun p => p.1 == s.programPosition) with
  | some p => (.ok p.2, s)
  | none => (.vmError .bracketFailure, s)

/-- `VirtualMachine::end_loop` (lines 217-228): if the cell at the head
(whose read panics when the head is out of bounds) is non-zero, scan the
bracket map for the entry whose value is the current program position and
return its key plus one; otherwise, or when no entry matches, fall through
to the next position.  Values are unique, so the iteration over the
hash map is modelled by `List.find?` on the second component. -/
def endLoop (s : VMState) : RunRes Nat × VMState :=
  match s.tape.get? s.tapeHead with
  | none => (.panic, s)
  | some v =>
    if v ≠ 0 then
      match s.bracketMap.find? (fun p => p.2 == s.programPosition) with
      | some p => (.ok (p.1 + 1), s)
      | none => (.ok (s.programPosition + 1), s)
    else (.ok (s.programPosition + 1), s)

/-- The dispatch of `VirtualMachine::interpret`'s loop body (lines
72-81). -/
def step (i : InstructionInfo) (s : VMState) : RunRes Nat × VMState :=
  match i.operation with
  | .incrementByte => incrementCellAtHead s
  | .decrementByte => decrementCellAtHead s
  | .incrementPointer => moveRight s
  | .decrementPointer => moveLeft s
  | .outputByte => writeOutOfCell s
  | .inputByte => readIntoCell s
  | .startLoop => startLoop s
  | .endLoop => endLoop s

/-- `VirtualMachine::interpret` (lines 63-84), fuel-indexed.  The loop
bound `last_position` is `instructions.len() - 1` computed in `usize`
arithmetic, so it wraps around for an empty instruction list; the
instruction fetch `instructions[program_position]` panics when the
position is out of bounds.  The instruction list never changes during the
run, so recomputing the bound each iteration is equivalent to the
source's single computation before the loop. -/
def interpretAux : Nat → VMState → RunRes Unit × VMState
  | 0, s => (.outOfFuel, s)
  | fuel + 1, s =>
    if s.programPosition ≤ usizeSub s.instructions.length 1 then
      match s.instructions.get? s.programPosition with
      | none => (.panic, s)
      | some i =>
        match step i s with
        | (.ok next, s1) => interpretAux fuel { s1 with programPosition := next }
        | (.vmError e, s1) => (.vmError e, s1)
        | (.panic, s1) => (.panic, s1)
        | (.outOfFuel, s1) => (.outOfFuel, s1)
    else (.ok (), s)

/-- `VirtualMachine::new` (lines 45-60): a zero requested tape length is
replaced by the 30000-cell default, the tape starts all zero, both cursors
start at zero.  The bracket map is the spec-modelled
`bracket_matching_positions` of the borrowed program. -/
def VirtualMachine.new (p : BfProgram) (tapeLength : Nat) (growable : Bool)
    (input : List Nat) : VMState :=
  { instructions := p.instructions
    filename := p.filename
    bracketMap := buildBracketMap p.instructions
    tape := List.replicate (if tapeLength = 0 then 30000 else tapeLength) 0
    tapeHead := 0
    programPosition := 0
    growable := growable
    input := input
    output := [] }

/-- The eight-character alphabet of the source language, from section 6 of
the specification. -/
def bfAlphabet : List Char := ['>', '<', '+', '-', '.', ',', '[', ']']

lemma charToOperation_isSome_iff (c : Char) :
    (charToOperation c).isSome ↔ c ∈ bfAlphabet := by
  unfold charToOperation
  split_ifs with h1 h2 h3 h4 h5 h6 h7 h8 <;>
    simp [bfAlphabet, h1, *]

lemma tokenizeAux_map_operation (l : List Char) :
    ∀ line col, (tokenizeAux l line col).map (fun i => i.operation) =
      l.filterMap charToOperation := by
  induction l with
  | nil => intro line col; rfl
  | cons c rest ih =>
    intro line col
    simp only [tokenizeAux]
    cases h : charToOperation c <;>
      simp [List.filterMap_cons, h, ih]

lemma length_filterMap_charToOperation (l : List Char) :
    (l.filterMap charToOperation).length =
      (l.filter (fun c => decide (c ∈ bfAlphabet))).length := by
  induction l with
  | nil => rfl
  | cons c rest ih =>
    cases h : charToOperation c with
    | none =>
      have hmem : ¬ c ∈ bfAlphabet := by
        rw [← charToOperation_isSome_iff, h]
        simp
      simp [List.filterMap_cons, List.filter_cons, h, hmem, ih]
    | some op =>
      have hmem : c ∈ bfAlphabet := by
        rw [← charToOperation_isSome_iff, h]
        simp
      simp [List.filterMap_cons, List.filter_cons, h, hmem, ih]

/-- C9: for every source text, the loader retains exactly the characters of
the 8-symbol alphabet, in source encounter order: the instruction
sequence's operations are the `filterMap` of the character-to-operation
table over the text, and its length is the count of alphabet characters;
every other character contributes no instruction. -/
theorem c9_loader_retains_alphabet (contents : List Char) (filename : String) :
    ((BfProgram.new contents filename).instructions).map (fun i => i.operation) =
      contents.filterMap charToOperation ∧
    ((BfProgram.new contents filename).instructions).length =
      (contents.filter (fun c => decide (c ∈ bfAlphabet))).length := by
  have hmap := tokenizeAux_map_operation contents 1 1
  refine ⟨hmap, ?_⟩
  have hlen := congrArg List.length hmap
  simp only [List.length_map] at hlen
  show (tokenizeAux contents 1 1).length = _
  rw [hlen, length_filterMap_charToOperation]

/-- Number of instructions with a given operation, defined by plain
counting, independently of the bracket-scanning algorithm. -/
def countOp (o : Operation) : List InstructionInfo → Nat
  | [] => 0
  | i :: rest => (if i.operation = o then 1 else 0) + countOp o rest

/-- An instruction sequence is balanced when no prefix has more closing
than opening loop brackets and the totals agree. -/
def Balanced (il : List InstructionInfo) : Prop :=
  (∀ k, countOp .endLoop (il.take k) ≤ countOp .startLoop (il.take k)) ∧
  countOp .startLoop il = countOp .endLoop il

/-- The counting invariant of the bracket scan when `d` opens are already
pending. -/
def ScanInv (il : List InstructionInfo) (d : Nat) : Prop :=
  (∀ k, countOp .endLoop (il.take k) ≤ countOp .startLoop (il.take k) + d) ∧
  countOp .startLoop il + d = countOp .endLoop il

lemma scanInv_nil (d : Nat) : ScanInv [] d ↔ d = 0 := by
  unfold ScanInv
  constructor
  · rintro ⟨-, heq⟩
    simpa [countOp] using heq
  · rintro rfl
    exact ⟨fun k => by simp [countOp], by simp [countOp]⟩

lemma scanInv_cons_start (i : InstructionInfo) (rest : List InstructionInfo)
    (d : Nat) (h : i.operation = .startLoop) :
    ScanInv (i :: rest) d ↔ ScanInv rest (d + 1) := by
  unfold ScanInv
  constructor
  · rintro ⟨hall, heq⟩
    refine ⟨fun k => ?_, ?_⟩
    · have := hall (k + 1)
      simp [List.take_succ_cons, countOp, h] at this
      omega
    · simp [countOp, h] at heq
      omega
  · rintro ⟨hall, heq⟩
    refine ⟨fun k => ?_, ?_⟩
    · cases k with
      | zero => simp [countOp]
      | succ k =>
        have := hall k
        simp [List.take_succ_cons, countOp, h]
        omega
    · simp [countOp, h]
      omega

lemma scanInv_cons_end (i : InstructionInfo) (rest : List InstructionInfo)
    (d : Nat) (h : i.operation = .endLoop) :
    ScanInv (i :: rest) (d + 1) ↔ ScanInv rest d := by
  unfold ScanInv
  constructor
  · rintro ⟨hall, heq⟩
    refine ⟨fun k => ?_, ?_⟩
    · have := hall (k + 1)
      simp [List.take_succ_cons, countOp, h] at this
      omega
    · simp [countOp, h] at heq
      omega
  · rintro ⟨hall, heq⟩
    refine ⟨fun k => ?_, ?_⟩
    · cases k with
      | zero => simp [countOp]
      | succ k =>
        have := hall k
        simp [List.take_succ_cons, countOp, h]
        omega
    · simp [countOp, h]
      omega

lemma not_scanInv_cons_end_zero (i : InstructionInfo)
    (rest : List InstructionInfo) (h : i.operation = .endLoop) :
    ¬ ScanInv (i :: rest) 0 := by
  rintro ⟨hall, -⟩
  have := hall 1
  simp [List.take_succ_cons, List.take_zero, countOp, h] at this

lemma scanInv_cons_other (i : InstructionInfo) (rest : List InstructionInfo)
    (d : Nat) (h1 : ¬ i.operation = .startLoop)
    (h2 : ¬ i.operation = .endLoop) :
    ScanInv (i :: rest) d ↔ ScanInv rest d := by
  unfold ScanInv
  constructor
  · rintro ⟨hall, heq⟩
    refine ⟨fun k => ?_, ?_⟩
    · have := hall (k + 1)
      simp [List.take_succ_cons, countOp, h1, h2] at this
      omega
    · simp [countOp, h1, h2] at heq
      omega
  · rintro ⟨hall, heq⟩
    refine ⟨fun k => ?_, ?_⟩
    · cases k with
      | zero => simp [countOp]
      | succ k =>
        have := hall k
        simp [List.take_succ_cons, countOp, h1, h2]
        omega
    · simp [countOp, h1, h2]
      omega

lemma bracketCheckAux_ok_iff (il : List InstructionInfo) :
    ∀ st, bracketCheckAux il st = .ok () ↔ ScanInv il st.length := by
  induction il with
  | nil =>
    intro st
    cases st with
    | nil => simp [bracketCheckAux, scanInv_nil]
    | cons a st' => simp [bracketCheckAux, scanInv_nil]
  | cons i rest ih =>
    intro st
    by_cases h1 : i.operation = .startLoop
    · rw [show bracketCheckAux (i :: rest) st = bracketCheckAux rest (i :: st) by
        simp [bracketCheckAux, h1]]
      rw [ih (i :: st), List.length_cons, scanInv_cons_start i rest st.length h1]
    · by_cases h2 : i.operation = .endLoop
      · cases st with
        | nil =>
          rw [show bracketCheckAux (i :: rest) [] =
              .error (.unmatchedClose i.line i.column) by
            simp [bracketCheckAux, h1, h2]]
          constructor
          · intro h
            exact absurd h (by simp)
          · intro h
            exact absurd h (not_scanInv_cons_end_zero i rest h2)
        | cons a st' =>
          rw [show bracketCheckAux (i :: rest) (a :: st') =
              bracketCheckAux rest st' by simp [bracketCheckAux, h1, h2]]
          rw [ih st', List.length_cons, scanInv_cons_end i rest st'.length h2]
      · rw [show bracketCheckAux (i :: rest) st = bracketCheckAux rest st by
          simp [bracketCheckAux, h1, h2]]
        rw [ih st, scanInv_cons_other i rest st.length h1 h2]

lemma balanced_iff_scanInv (il : List InstructionInfo) :
    Balanced il ↔ ScanInv il 0 := by
  unfold Balanced ScanInv
  simp

/-- The renaming of the spec's load errors onto the messages produced by
the source's `bracket_check`. -/
def loadErrorToBracketError : LoadError → BracketError
  | .unmatchedOpenBracket l c => .unmatchedOpen l c
  | .unmatchedCloseBracket l c => .unmatchedClose l c

lemma bracketCheckAux_eq_specScan (il : List InstructionInfo) :
    ∀ st, bracketCheckAux il st =
      match specBracketScan il st with
      | .ok u => .ok u
      | .error e => .error (loadErrorToBracketError e) := by
  induction il with
  | nil =>
    intro st
    cases st with
    | nil => rfl
    | cons a st' => rfl
  | cons i rest ih =>
    intro st
    by_cases h1 : i.operation = .startLoop
    · simp [bracketCheckAux, specBracketScan, h1, ih (i :: st)]
    · by_cases h2 : i.operation = .endLoop
      · cases st with
        | nil => simp [bracketCheckAux, specBracketScan, h1, h2, loadErrorToBracketError]
        | cons a st' => simp [bracketCheckAux, specBracketScan, h1, h2, ih st']
      · simp [bracketCheckAux, specBracketScan, h1, h2, ih st]

/-- C5: the source's bracket check succeeds exactly on balanced
instruction sequences, and its two failure messages coincide, position
for position, with the spec's prescriptions: `unmatchedClose` is reported
exactly when the spec's scan fails with `UnmatchedCloseBracket` at the
same line and column (the offending `LoopEnd`'s position), and
`unmatchedOpen` exactly when the spec's scan fails with
`UnmatchedOpenBracket` at the same line and column (the most recently
pushed, still-unmatched `LoopStart`'s position). -/
theorem c5_bracket_check_exact (p : BfProgram) :
    (p.bracketCheck = .ok () ↔ Balanced p.instructions) ∧
    (∀ l c, p.bracketCheck = .error (.unmatchedClose l c) ↔
      specBracketScan p.instructions [] = .error (.unmatchedCloseBracket l c)) ∧
    (∀ l c, p.bracketCheck = .error (.unmatchedOpen l c) ↔
      specBracketScan p.instructions [] = .error (.unmatchedOpenBracket l c)) := by
  refine ⟨?_, ?_, ?_⟩
  · rw [BfProgram.bracketCheck, bracketCheckAux_ok_iff p.instructions [],
      balanced_iff_scanInv]
    rfl
  · intro l c
    rw [BfProgram.bracketCheck, bracketCheckAux_eq_specScan p.instructions []]
    cases h : specBracketScan p.instructions [] with
    | ok u => simp
    | error e => cases e <;> simp [loadErrorToBracketError]
  · intro l c
    rw [BfProgram.bracketCheck, bracketCheckAux_eq_specScan p.instructions []]
    cases h : specBracketScan p.instructions [] with
    | ok u => simp
    | error e => cases e <;> simp [loadErrorToBracketError]

/-- C1: evaluation of the source loader at the unbalanced text `"[[]"`:
`BfProgram::new` (which performs no bracket analysis and, by its type,
cannot fail) returns a Program carrying three instructions, even though
the program's own `bracket_check` reports the text unbalanced — so
construction does not fail closed as the claim requires. -/
theorem c1_new_returns_program_on_unbalanced :
    (BfProgram.new ("[[]".toList) "test.bf").instructions.length = 3 ∧
    (BfProgram.new ("[[]".toList) "test.bf").bracketCheck =
      .error (.unmatchedOpen 1 1) := by
  exact ⟨rfl, rfl⟩

/-- C2: for a VM whose borrowed program has an empty instruction sequence,
the interpret loop does not return success: `last_position` is
`instructions.len() - 1` in wrapping `usize` arithmetic, which for length
0 wraps to `2 ^ 64 - 1`, so the loop body runs and the fetch of
instruction 0 from the empty sequence panics. -/
theorem c2_interpret_empty_program_panics (s : VMState) (fuel : Nat)
    (hinstr : s.instructions = []) (hpos : s.programPosition = 0) :
    interpretAux (fuel + 1) s = (.panic, s) := by
  simp [interpretAux, hinstr, hpos, usizeSub, USIZE]

/-- A VM over a program whose source text holds no alphabet character, as
the CLI would build it for a comment-only file. -/
def emptyProgramVM : VMState :=
  VirtualMachine.new (BfProgram.new ("comment only".toList) "empty.bf") 1 false []

/-- C2 witness: the panic at a concrete comment-only program. -/
theorem c2_witness : interpretAux 1 emptyProgramVM = (.panic, emptyProgramVM) :=
  c2_interpret_empty_program_panics emptyProgramVM 0 rfl rfl

lemma find_key_eq_of_nodup (l : List (Nat × Nat)) (i j : Nat)
    (hnodup : (l.map Prod.fst).Nodup) (hmem : (i, j) ∈ l) :
    l.find? (fun p => p.1 == i) = some (i, j) := by
  induction l with
  | nil => cases hmem
  | cons y t ih =>
    rw [List.map_cons, List.nodup_cons] at hnodup
    by_cases hy : y.1 = i
    · rw [List.find?_cons_of_pos _ (by simp [hy])]
      rcases List.mem_cons.mp hmem with h | h
      · rw [← h]
      · exact absurd (hy ▸ List.mem_map_of_mem Prod.fst h)
          (by simpa [hy] using hnodup.1)
    · rw [List.find?_cons_of_neg _ (by simp [hy])]
      rcases List.mem_cons.mp hmem with h | h
      · exact absurd (congrArg Prod.fst h.symm) hy
      · exact ih hnodup.2 h

lemma find_val_eq_of_nodup (l : List (Nat × Nat)) (i j : Nat)
    (hnodup : (l.map Prod.snd).Nodup) (hmem : (i, j) ∈ l) :
    l.find? (fun p => p.2 == j) = some (i, j) := by
  induction l with
  | nil => cases hmem
  | cons y t ih =>
    rw [List.map_cons, List.nodup_cons] at hnodup
    by_cases hy : y.2 = j
    · rw [List.find?_cons_of_pos _ (by simp [hy])]
      rcases List.mem_cons.mp hmem with h | h
      · rw [← h]
      · exact absurd (hy ▸ List.mem_map_of_mem Prod.snd h)
          (by simpa [hy] using hnodup.1)
    · rw [List.find?_cons_of_neg _ (by simp [hy])]
      rcases List.mem_cons.mp hmem with h | h
      · exact absurd (congrArg Prod.snd h.symm) hy
      · exact ih hnodup.2 h

/-- The loop-semantics example program of the repository's tests and of
section 8 of the spec: the retained instructions are at indices 0..5 and
the open bracket at index 0 matches the close bracket at index 3. -/
def loopExampleProgram : BfProgram :=
  BfProgram.new ("[some,.],.program".toList) "test.bf"

/-- A VM over the loop example, as built by
`VirtualMachine::<u8>::new(&program, 10, false)`. -/
def loopExampleVM : VMState := VirtualMachine.new loopExampleProgram 10 false []

/-- C3 counterexample: on the validated loop example (open index 0 matches
close index 3), the LoopStart handler invoked at program position 0
returns 3 — the index of the matching LoopEnd itself — and not 4, the
index immediately after it that the claim prescribes. -/
theorem c3_counterexample :
    (startLoop loopExampleVM).1 = .ok 3 ∧
    (startLoop loopExampleVM).1 ≠ .ok 4 := by
  constructor
  · rfl
  · decide

/-- C3 amended: for every validated Program whose open-to-close map has
unique keys and maps the LoopStart index i to the matching LoopEnd index
j, the LoopStart handler invoked at program position i returns j (the
matching LoopEnd's own index, where the exit decision is then taken) as
the next program position, leaving the state unchanged. -/
theorem c3_start_loop_returns_close_index (s : VMState) (i j : Nat)
    (hnodup : (s.bracketMap.map Prod.fst).Nodup)
    (hmem : (i, j) ∈ s.bracketMap)
    (hpos : s.programPosition = i) :
    startLoop s = (.ok j, s) := by
  unfold startLoop
  rw [hpos, find_key_eq_of_nodup s.bracketMap i j hnodup hmem]

/-- C3 witness: the amended statement at the concrete loop example. -/
theorem c3_witness : startLoop loopExampleVM = (.ok 3, loopExampleVM) :=
  c3_start_loop_returns_close_index loopExampleVM 0 3 (by decide) (by decide) rfl

/-- C4: for every validated Program whose open-to-close map has unique
values and maps the LoopStart index i to the matching LoopEnd index j, the
LoopEnd handler invoked at program position j returns i + 1 when the cell
at the tape head is non-zero and falls through to j + 1 when that cell is
zero, leaving the state unchanged either way. -/
theorem c4_end_loop_branches (s : VMState) (i j v : Nat)
    (hnodup : (s.bracketMap.map Prod.snd).Nodup)
    (hmem : (i, j) ∈ s.bracketMap)
    (hpos : s.programPosition = j)
    (hcell : s.tape.get? s.tapeHead = some v) :
    (v ≠ 0 → endLoop s = (.ok (i + 1), s)) ∧
    (v = 0 → endLoop s = (.ok (j + 1), s)) := by
  rw [List.get?_eq_getElem?] at hcell
  constructor
  · intro hv
    simp [endLoop, hcell, hpos, hv,
      find_val_eq_of_nodup s.bracketMap i j hnodup hmem]
  · intro hv
    simp [endLoop, hcell, hpos, hv]

/-- A VM over the loop example stopped at the LoopEnd instruction, index
3, with the (zero-initialised) tape untouched. -/
def loopExampleAtEnd : VMState := { loopExampleVM with programPosition := 3 }

/-- C4 witness: the zero-cell branch at the concrete loop example: the
LoopEnd at index 3 falls through to 4. -/
theorem c4_witness : endLoop loopExampleAtEnd = (.ok 4, loopExampleAtEnd) :=
  (c4_end_loop_branches loopExampleAtEnd 0 3 0 (by decide) (by decide) rfl
    (by decide)).2 rfl

lemma USIZE_eq : USIZE = 18446744073709551616 := by norm_num [USIZE]

lemma usizeSub_one (n : Nat) (h1 : 1 ≤ n) (h2 : n ≤ USIZE) :
    usizeSub n 1 = n - 1 := by
  rw [USIZE_eq] at h2
  simp only [usizeSub, USIZE_eq]
  omega

lemma vmBind_ok (a : Nat) (s1 : VMState)
    (f : VMState → RunRes Nat × VMState) : vmBind (.ok a, s1) f = f s1 := rfl

lemma vmBind_vmError (e : VMError) (s1 : VMState)
    (f : VMState → RunRes Nat × VMState) :
    vmBind (.vmError e, s1) f = (.vmError e, s1) := rfl

lemma vmBind_panic (s1 : VMState) (f : VMState → RunRes Nat × VMState) :
    vmBind (.panic, s1) f = (.panic, s1) := rfl

lemma vmBind_outOfFuel (s1 : VMState) (f : VMState → RunRes Nat × VMState) :
    vmBind (.outOfFuel, s1) f = (.outOfFuel, s1) := rfl

/-- C6: a growable VM with tape length 1 and head 0: moving right
succeeds, the tape becomes the old tape with one zero cell appended (so
length 2, head 1, new cell zero); and in general `check_head_location` on
a growable tape appends exactly one zero cell per over-run and leaves an
in-bounds tape untouched. -/
theorem c6_move_right_grows_by_one (s : VMState)
    (hg : s.growable = true) (hlen : s.tape.length = 1) (hhead : s.tapeHead = 0) :
    (moveRight s = (.ok (s.programPosition + 1),
      { s with tape := s.tape ++ [0], tapeHead := 1 }) ∧
     (s.tape ++ [0]).length = 2 ∧
     (s.tape ++ [0]).get? 1 = some 0) ∧
    ∀ t : VMState, 1 ≤ t.tape.length → t.tape.length ≤ USIZE →
      (t.growable = true → t.tape.length ≤ t.tapeHead →
        (checkHeadLocation t).2.tape = t.tape ++ [0]) ∧
      (t.tapeHead < t.tape.length → (checkHeadLocation t).2 = t) := by
  have hu : usizeSub 1 1 = 0 := usizeSub_one 1 le_rfl (by rw [USIZE_eq]; omega)
  constructor
  · refine ⟨?_, by simp [hlen], ?_⟩
    · have h1 : checkHeadLocation s = (.ok s.programPosition, s) := by
        simp [checkHeadLocation, hlen, hhead, hu]
      have h2 : checkHeadLocation { s with tapeHead := s.tapeHead + 1 } =
          (.ok s.programPosition,
            { s with tapeHead := s.tapeHead + 1, tape := s.tape ++ [0] }) := by
        simp [checkHeadLocation, hg, hlen, hu]
      unfold moveRight
      rw [h1, vmBind_ok]
      rw [h2, vmBind_ok]
      simp [hhead]
    · rw [List.get?_eq_getElem?, List.getElem?_append_right (by omega)]
      simp [hlen]
  · intro t h1 h2
    have hu2 := usizeSub_one t.tape.length h1 h2
    constructor
    · intro hgrow hover
      simp [checkHeadLocation, hu2, hgrow,
        show t.tape.length - 1 < t.tapeHead from by omega]
    · intro hin
      simp [checkHeadLocation, hu2,
        show ¬ t.tape.length - 1 < t.tapeHead from by omega]

/-- C6 witness: the concrete growable one-cell VM. -/
theorem c6_witness :
    moveRight (VirtualMachine.new (BfProgram.new (">".toList) "grow.bf") 1 true []) =
      (.ok 1, { VirtualMachine.new (BfProgram.new (">".toList) "grow.bf") 1 true []
        with tape := [0, 0], tapeHead := 1 }) := by
  have h := (c6_move_right_grows_by_one
    (VirtualMachine.new (BfProgram.new (">".toList) "grow.bf") 1 true [])
    rfl rfl rfl).1.1
  exact h

/-- C7: a non-growable VM with tape length 1 and head 0 (stopped at a
fetchable instruction): moving right fails with `InvalidHeadPosition`
reporting position 1 on a tape of length 1, the tape contents,
instruction list and program position are unchanged, and the head is left
at the incremented out-of-bounds value 1, equal to the tape length — not
rolled back. -/
theorem c7_move_right_fixed_tape_errors (s : VMState) (instr : InstructionInfo)
    (hg : s.growable = false) (hlen : s.tape.length = 1) (hhead : s.tapeHead = 0)
    (hinstr : s.instructions.get? s.programPosition = some instr) :
    moveRight s = (.vmError (.invalidHeadPosition instr.line instr.column
      instr.operation s.filename 1 1), { s with tapeHead := 1 }) := by
  have hu : usizeSub 1 1 = 0 := usizeSub_one 1 le_rfl (by rw [USIZE_eq]; omega)
  rw [List.get?_eq_getElem?] at hinstr
  have h1 : checkHeadLocation s = (.ok s.programPosition, s) := by
    simp [checkHeadLocation, hlen, hhead, hu]
  have h2 : checkHeadLocation { s with tapeHead := s.tapeHead + 1 } =
      (.vmError (.invalidHeadPosition instr.line instr.column instr.operation
        s.filename (s.tapeHead + 1) s.tape.length),
        { s with tapeHead := s.tapeHead + 1 }) := by
    simp [checkHeadLocation, hg, hlen, hu, hinstr, Nat.succ_pos]
  unfold moveRight
  rw [h1, vmBind_ok]
  rw [h2, vmBind_vmError]
  simp [hhead, hlen]

/-- C7 witness: the concrete fixed one-cell VM at the program `">"`. -/
theorem c7_witness :
    moveRight (VirtualMachine.new (BfProgram.new (">".toList) "fixed.bf") 1 false []) =
      (.vmError (.invalidHeadPosition 1 1 .incrementPointer "fixed.bf" 1 1),
        { VirtualMachine.new (BfProgram.new (">".toList) "fixed.bf") 1 false []
          with tapeHead := 1 }) :=
  c7_move_right_fixed_tape_errors
    (VirtualMachine.new (BfProgram.new (">".toList) "fixed.bf") 1 false [])
    ⟨.incrementPointer, 1, 1⟩ rfl rfl rfl rfl

/-- C8: for every VM whose head is at 0 (with a non-empty tape and a
fetchable current instruction), moving left fails with
`InvalidHeadPosition` and the state is returned entirely unchanged: the
head is still 0 — it never goes below zero — and no tape cell has been
modified. -/
theorem c8_move_left_at_zero_errors (s : VMState) (instr : InstructionInfo)
    (hhead : s.tapeHead = 0) (h1 : 1 ≤ s.tape.length) (h2 : s.tape.length ≤ USIZE)
    (hinstr : s.instructions.get? s.programPosition = some instr) :
    moveLeft s = (.vmError (.invalidHeadPosition instr.line instr.column
      instr.operation s.filename 0 s.tape.length), s) := by
  have hu := usizeSub_one s.tape.length h1 h2
  rw [List.get?_eq_getElem?] at hinstr
  have hchl : checkHeadLocation s = (.ok s.programPosition, s) := by
    simp [checkHeadLocation, hu, hhead]
  unfold moveLeft
  rw [hchl, vmBind_ok]
  simp [hhead, hinstr]

/-- C8 witness: moving left from the initial state of a concrete VM at
the program `"<"`. -/
theorem c8_witness :
    moveLeft (VirtualMachine.new (BfProgram.new ("<".toList) "left.bf") 2 false []) =
      (.vmError (.invalidHeadPosition 1 1 .decrementPointer "left.bf" 0 2),
        VirtualMachine.new (BfProgram.new ("<".toList) "left.bf") 2 false []) :=
  c8_move_left_at_zero_errors
    (VirtualMachine.new (BfProgram.new ("<".toList) "left.bf") 2 false [])
    ⟨.decrementPointer, 1, 1⟩ rfl (by decide) (by decide) rfl

lemma checkHeadLocation_not_bracketFailure (s : VMState) :
    (checkHeadLocation s).1 ≠ .vmError .bracketFailure := by
  unfold checkHeadLocation
  split
  · split
    · simp
    · split <;> simp
  · simp

lemma vmBind_not_bracketFailure (r : RunRes Nat × VMState)
    (f : VMState → RunRes Nat × VMState)
    (hr : r.1 ≠ .vmError .bracketFailure)
    (hf : ∀ t, (f t).1 ≠ .vmError .bracketFailure) :
    (vmBind r f).1 ≠ .vmError .bracketFailure := by
  rcases r with ⟨r1, s1⟩
  cases r1 with
  | ok a => rw [vmBind_ok]; exact hf s1
  | vmError e => rw [vmBind_vmError]; exact hr
  | panic => rw [vmBind_panic]; exact hr
  | outOfFuel => rw [vmBind_outOfFuel]; exact hr

lemma moveRight_not_bracketFailure (s : VMState) :
    (moveRight s).1 ≠ .vmError .bracketFailure := by
  have hc1 := checkHeadLocation_not_bracketFailure s
  unfold moveRight
  rcases h1 : checkHeadLocation s with ⟨r1, s1⟩
  rw [h1] at hc1
  cases r1 with
  | ok a =>
    rw [vmBind_ok]
    have hc2 := checkHeadLocation_not_bracketFailure
      { s1 with tapeHead := s1.tapeHead + 1 }
    rcases h2 : checkHeadLocation { s1 with tapeHead := s1.tapeHead + 1 }
      with ⟨r2, s3⟩
    rw [h2] at hc2
    cases r2 with
    | ok b => rw [vmBind_ok]; simp
    | vmError e => rw [vmBind_vmError]; exact hc2
    | panic => rw [vmBind_panic]; exact hc2
    | outOfFuel => rw [vmBind_outOfFuel]; exact hc2
  | vmError e => rw [vmBind_vmError]; exact hc1
  | panic => rw [vmBind_panic]; exact hc1
  | outOfFuel => rw [vmBind_outOfFuel]; exact hc1

lemma moveLeft_not_bracketFailure (s : VMState) :
    (moveLeft s).1 ≠ .vmError .bracketFailure := by
  have hc1 := checkHeadLocation_not_bracketFailure s
  unfold moveLeft
  rcases h1 : checkHeadLocation s with ⟨r1, s1⟩
  rw [h1] at hc1
  cases r1 with
  | ok a =>
    rw [vmBind_ok]
    by_cases ht : s1.tapeHead = 0
    · rw [if_pos ht]
      split <;> simp
    · rw [if_neg ht]
      have hc2 := checkHeadLocation_not_bracketFailure
        { s1 with tapeHead := s1.tapeHead - 1 }
      rcases h2 : checkHeadLocation { s1 with tapeHead := s1.tapeHead - 1 }
        with ⟨r2, s3⟩
      rw [h2] at hc2
      cases r2 with
      | ok b => rw [vmBind_ok]; simp
      | vmError e => rw [vmBind_vmError]; exact hc2
      | panic => rw [vmBind_panic]; exact hc2
      | outOfFuel => rw [vmBind_outOfFuel]; exact hc2
  | vmError e => rw [vmBind_vmError]; exact hc1
  | panic => rw [vmBind_panic]; exact hc1
  | outOfFuel => rw [vmBind_outOfFuel]; exact hc1

/-- C10: the LoopEnd handler is total on the error channel: it never
returns a `VirtualMachineError` at all, for any state with the head on the
tape it returns Ok, and in particular when the cell at the head is
non-zero but the bracket map holds no entry whose value is the current
program position it silently advances to the next position; the defensive
`BracketFailure` is produced by the LoopStart handler on a missing key and
by no other handler. -/
theorem c10_end_loop_total_and_exclusive (s : VMState) :
    (∀ e, (endLoop s).1 ≠ .vmError e) ∧
    (∀ v, s.tape.get? s.tapeHead = some v → ∃ n, endLoop s = (.ok n, s)) ∧
    (∀ v, s.tape.get? s.tapeHead = some v → v ≠ 0 →
      s.bracketMap.find? (fun p => p.2 == s.programPosition) = none →
      endLoop s = (.ok (s.programPosition + 1), s)) ∧
    (s.bracketMap.find? (fun p => p.1 == s.programPosition) = none →
      startLoop s = (.vmError .bracketFailure, s)) ∧
    (incrementCellAtHead s).1 ≠ .vmError .bracketFailure ∧
    (decrementCellAtHead s).1 ≠ .vmError .bracketFailure ∧
    (readIntoCell s).1 ≠ .vmError .bracketFailure ∧
    (writeOutOfCell s).1 ≠ .vmError .bracketFailure ∧
    (moveRight s).1 ≠ .vmError .bracketFailure ∧
    (moveLeft s).1 ≠ .vmError .bracketFailure := by
  refine ⟨?_, ?_, ?_, ?_, ?_, ?_, ?_, ?_,
    moveRight_not_bracketFailure s, moveLeft_not_bracketFailure s⟩
  · intro e
    unfold endLoop
    split
    · simp
    · split
      · split <;> simp
      · simp
  · intro v hcell
    rw [List.get?_eq_getElem?] at hcell
    by_cases hv : v = 0
    · exact ⟨s.programPosition + 1, by simp [endLoop, hcell, hv]⟩
    · rcases hfind : s.bracketMap.find? (fun p => p.2 == s.programPosition)
        with _ | p
      · exact ⟨s.programPosition + 1, by simp [endLoop, hcell, hv, hfind]⟩
      · exact ⟨p.1 + 1, by simp [endLoop, hcell, hv, hfind]⟩
  · intro v hcell hv hnone
    rw [List.get?_eq_getElem?] at hcell
    simp [endLoop, hcell, hv, hnone]
  · intro hnone
    simp [startLoop, hnone]
  · unfold incrementCellAtHead
    split <;> simp
  · unfold decrementCellAtHead
    split <;> simp
  · unfold readIntoCell
    split
    · simp
    · split <;> simp
  · unfold writeOutOfCell
    split <;> simp

/-- A concrete state with a non-zero cell under the head and an empty
bracket map. -/
def c10ExampleVM : VMState :=
  { instructions := [], filename := "w.bf", bracketMap := [],
    tape := [5], tapeHead := 0, programPosition := 0, growable := false,
    input := [], output := [] }

/-- C10 witness: LoopEnd on a non-zero cell with no matching map entry
silently advances. -/
theorem c10_witness : endLoop c10ExampleVM = (.ok 1, c10ExampleVM) :=
  (c10_end_loop_total_and_exclusive c10ExampleVM).2.2.1 5 rfl (by decide) rfl

end Bft
